import Mathlib

/-!
Shallow embedding of `programl/util/py/progress.py`: a profiling timer and
scoped profiler, a polled run loop with stall detection, and logging /
progress-bar contexts.  Timestamps are rationals (seconds); the run loop's
unbounded `while` is given explicit fuel; Python exceptions are an explicit
error type and fallible code returns `Except`.
-/

/-- Python exceptions that the embedded code can raise. -/
inductive PyExc where
  | typeError
  | valueError
  | osError (elapsed : ℚ)
deriving DecidableEq, Repr

/-- Discriminator for normal completion of fallible code. -/
def isOkB {ε α : Type} : Except ε α → Bool
  | Except.ok _ => true
  | Except.error _ => false

/-- `ProfileTimer`: `start` is set at construction, `end` (here `end_`,
`end` being a Lean keyword) is set by `Stop`. -/
structure ProfileTimer where
  start : ℚ
  end_ : Option ℚ
deriving DecidableEq, Repr

/-- `ProfileTimer.Stop`: `if self.end: return` then `self.end = utcnow()`.
A datetime object is always truthy, so the guard is `end is not None`. -/
def ProfileTimer.Stop (t : ProfileTimer) (now : ℚ) : ProfileTimer :=
  if t.end_.isSome then t else { t with end_ := some now }

/-- `ProfileTimer.elapsed`: `(end - start)` when stopped, else
`(utcnow() - start)`. -/
def ProfileTimer.elapsed (t : ProfileTimer) (now : ℚ) : ℚ :=
  match t.end_ with
  | some e => e - t.start
  | none => now - t.start

/-- Python 3 `round` on an exact value: round half to even. -/
def pyRound (x : ℚ) : ℤ :=
  let f : ℤ := ⌊x⌋
  let frac : ℚ := x - f
  if frac < 1 / 2 then f
  else if 1 / 2 < frac then f + 1
  else if f % 2 = 0 then f else f + 1

/-- `ProfileTimer.elapsed_ms`: `int(round(self.elapsed * 1000))`. -/
def ProfileTimer.elapsed_ms (t : ProfileTimer) (now : ℚ) : ℤ :=
  pyRound (t.elapsed now * 1000)

/-- The `name` argument of `Profile`: a literal string, a callback from the
elapsed seconds, or Python `None` (the annotation says `str` or callable,
but any value can be passed). -/
inductive PName where
  | lit (s : String)
  | cb (f : ℚ → String)
  | pyNone

/-- Python truthiness of a `name` value: the empty string and `None` are
falsy; every function object is truthy. -/
def PName.truthy : PName → Bool
  | PName.lit s => !(s == "")
  | PName.cb _ => true
  | PName.pyNone => false

/-- How an f-string renders a non-callable `name` value. -/
def PName.toPyStr : PName → String
  | PName.lit s => s
  | PName.cb _ => "<callable>"
  | PName.pyNone => "None"

/-- Observable result of one `Profile` scope: the messages passed to
`print_to`, the timer's final state, and the scope's outcome. -/
structure ProfileResult where
  sinkCalls : List String
  timer : ProfileTimer
  outcome : Except PyExc Unit
deriving Repr

/-- The `Profile` context manager, run against a body that either returns
normally or raises.  `hum` is the external `humanize.Duration` formatter;
`startT` is the entry time and `endT` the time the body finishes or raises.
The generator is `name = name or "completed"; timer = ProfileTimer();
yield timer; timer.Stop(); if callable(name): name = name(timer.elapsed);
print_to(f"{name} in {timer}")`.  There is no `try/finally`, so when the
body raises, the exception re-raised at the `yield` propagates out of the
generator and the statements after the `yield` never run. -/
def ProfileRun (hum : ℚ → String) (name : PName) (startT endT : ℚ)
    (body : Except PyExc Unit) : ProfileResult :=
  let name' := if name.truthy then name else PName.lit "completed"
  let timer0 : ProfileTimer := { start := startT, end_ := none }
  match body with
  | Except.error exc =>
      { sinkCalls := [], timer := timer0, outcome := Except.error exc }
  | Except.ok _ =>
      let timer1 := timer0.Stop endT
      let resolved :=
        match name' with
        | PName.cb f => f (timer1.elapsed endT)
        | other => other.toPyStr
      { sinkCalls := [resolved ++ " in " ++ hum (timer1.elapsed endT)],
        timer := timer1, outcome := Except.ok () }

/-- A `Progress` job as seen by the run loop: the shared counter `ctx.i`
read at a given time, and the time at which the job's thread terminates
(`none`: it never does).  The counter is mutated by the worker thread;
the loop only reads it. -/
structure Job where
  counter : ℚ → ℤ
  death : Option ℚ

/-- `progress.is_alive()` at time `t`. -/
def Job.alive (j : Job) (t : ℚ) : Bool :=
  match j.death with
  | none => true
  | some d => decide (t < d)

/-- The time at which `progress.join(refreshTime)` issued at time `t`
returns: at the thread's death if that falls inside the window, else
after the full timeout. -/
def Job.joinTime (j : Job) (t r : ℚ) : ℚ :=
  match j.death with
  | none => t + r
  | some d => min (t + r) d

/-- Observable actions of the run loop on the bar: `ctx.Refresh()` pushes
the counter value read at time `t`; `ctx.bar.close()` happens at time `t`. -/
inductive RunEvent where
  | refresh (t : ℚ) (i : ℤ)
  | close (t : ℚ)
deriving DecidableEq, Repr

/-- One step of the `while progress.is_alive()` loop of `Run`, with fuel.
Per iteration at time `t`: if the counter moved, record it and reset the
stall clock; else if `patience` is truthy and the stall exceeds it, raise
`OSError` carrying the elapsed stall; then `Refresh` and `join(refresh_time)`.
On normal exit: a final `Refresh` and `bar.close()`. -/
def runLoopAux (j : Job) (refreshTime : ℚ) (patience : ℤ)
    (lastI : ℤ) (lastProgress t : ℚ) :
    Nat → Option (List RunEvent × Except PyExc Unit)
  | 0 => none
  | fuel + 1 =>
    if j.alive t then
      if j.counter t ≠ lastI then
        (runLoopAux j refreshTime patience (j.counter t) t
            (j.joinTime t refreshTime) fuel).map
          (fun p => (RunEvent.refresh t (j.counter t) :: p.1, p.2))
      else if patience ≠ 0 ∧ (patience : ℚ) < t - lastProgress then
        some ([], Except.error (PyExc.osError (t - lastProgress)))
      else
        (runLoopAux j refreshTime patience lastI lastProgress
            (j.joinTime t refreshTime) fuel).map
          (fun p => (RunEvent.refresh t (j.counter t) :: p.1, p.2))
    else
      some ([RunEvent.refresh t (j.counter t), RunEvent.close t],
        Except.ok ())

/-- `Run(progress, refresh_time, patience)`: start the job at time `0`,
record `last_i = ctx.i` and `last_progress = now`, then drive the loop.
`none` means the fuel ran out before the loop finished. -/
def Run (j : Job) (refreshTime : ℚ) (patience : ℤ) (fuel : Nat) :
    Option (List RunEvent × Except PyExc Unit) :=
  runLoopAux j refreshTime patience (j.counter 0) 0 0 fuel

/-- Severity accepted by the external `absl` logging facility as used
here: `logging.info` and `logging.warning`. -/
inductive Severity where
  | info
  | warning
deriving DecidableEq, Repr

/-- One call into the logging facility: severity, positional arguments,
and the `print_context` keyword passed along as plain data. -/
structure LogCall where
  severity : Severity
  args : List String
  print_context : Option Nat
deriving DecidableEq, Repr

/-- `ProgressContext`: holds only `print_context` — `none` models Python
`None`, `some tok` a callable print-scope object identified by `tok`. -/
structure ProgressContext where
  print_context : Option Nat
deriving DecidableEq, Repr

/-- `ProgressContext.Log`: `logging.info(*args, print_context=...)`. -/
def ProgressContext.Log (c : ProgressContext) (args : List String) : LogCall :=
  { severity := Severity.info, args := args, print_context := c.print_context }

/-- `ProgressContext.Warning`: `logging.warning(*args, print_context=...)`. -/
def ProgressContext.Warning (c : ProgressContext) (args : List String) : LogCall :=
  { severity := Severity.warning, args := args, print_context := c.print_context }

/-- `ProgressContext.Error`: its body is `logging.warning(*args,
print_context=...)` — the same call as `Warning`. -/
def ProgressContext.Error (c : ProgressContext) (args : List String) : LogCall :=
  { severity := Severity.warning, args := args, print_context := c.print_context }

/-- Running the body of `ProgressContext.print`: `with self.print_context():`
calls the held object; when it is `None`, calling it raises `TypeError`.
Otherwise the args are emitted under the print scope. -/
def ProgressContext.printRun (c : ProgressContext) (args : List String) :
    Except PyExc (List String) :=
  match c.print_context with
  | none => Except.error PyExc.typeError
  | some _ => Except.ok args

/-- Running the body of `Log`: the held `print_context` is forwarded as a
keyword argument, never invoked, so the call cannot raise. -/
def ProgressContext.LogRun (c : ProgressContext) (args : List String) :
    Except PyExc LogCall :=
  Except.ok (c.Log args)

/-- Running the body of `Warning` (same shape as `Log`). -/
def ProgressContext.WarningRun (c : ProgressContext) (args : List String) :
    Except PyExc LogCall :=
  Except.ok (c.Warning args)

/-- Running the body of `Error` (same shape as `Log`). -/
def ProgressContext.ErrorRun (c : ProgressContext) (args : List String) :
    Except PyExc LogCall :=
  Except.ok (c.Error args)

/-- Running the body of `ProgressContext.Profile`: it only constructs a
`Profile` scope whose sink closes over `self.Log`; nothing is invoked. -/
def ProgressContext.ProfileMkRun (c : ProgressContext) (level : ℤ)
    (msg : PName) : Except PyExc (PName × (String → LogCall)) :=
  Except.ok (msg, fun x => c.Log [toString level, "%s", x])

/-- Module-level `NullContext = ProgressContext(None)`. -/
def NullContext : ProgressContext := { print_context := none }

/-- The external `tqdm.tqdm` bar as configured by `ProgressBarContext`:
its constructor arguments plus an identity token for its
`external_write_mode` bound method. -/
structure TqdmBar where
  desc : String
  initial : ℤ
  total : Option ℤ
  unit : String
  position : ℤ
  leave : Option Bool
  write_mode : Nat
deriving DecidableEq, Repr

/-- `ProgressBarContext`: the counter state plus the owned bar; its
`print_context` is the bar's `external_write_mode` (always a callable,
identified by its token). -/
structure ProgressBarContext where
  name : String
  i : ℤ
  n : Option ℤ
  unit : String
  vertical_position : ℤ
  bar : TqdmBar
  print_context : Nat
deriving DecidableEq, Repr

/-- The `ProgressBarContext` constructor: coerce counters to int (inputs
here are already integers), prefix a non-empty unit with a space for
display, build the bar, and capture `bar.external_write_mode`. -/
def mkProgressBarContext (name : String) (i : ℤ) (n : Option ℤ)
    (unit : String) (vertical_position : ℤ) (leave : Option Bool)
    (writeModeToken : Nat) : ProgressBarContext :=
  let dispUnit := if unit ≠ "" then " " ++ unit else unit
  let bar : TqdmBar :=
    { desc := name, initial := i, total := n, unit := dispUnit,
      position := vertical_position, leave := leave,
      write_mode := writeModeToken }
  { name := name, i := i, n := n, unit := unit,
    vertical_position := vertical_position, bar := bar,
    print_context := bar.write_mode }

/-- `ProgressBarContext.ToProgressContext`: `ProgressContext(self.print_context)`. -/
def ProgressBarContext.ToProgressContext (c : ProgressBarContext) :
    ProgressContext :=
  { print_context := some c.print_context }

/-- C4: `ProgressContext.Error` behaves identically to `Warning`: both emit
at the warning severity, annotated with the held `print_context`. -/
theorem Error_equals_Warning (c : ProgressContext) (args : List String) :
    c.Error args = c.Warning args
    ∧ (c.Error args).severity = Severity.warning
    ∧ (c.Error args).print_context = c.print_context :=
  ⟨rfl, rfl, rfl⟩

/-- C5: `ProfileTimer.Stop` is idempotent: the first call records the end
time, a second call is a no-op, so end and elapsed agree with a single call. -/
theorem Stop_idempotent (t : ProfileTimer) (n1 n2 : ℚ) :
    (t.end_ = none → (t.Stop n1).end_ = some n1)
    ∧ (t.Stop n1).Stop n2 = t.Stop n1
    ∧ ∀ now, ((t.Stop n1).Stop n2).elapsed now = (t.Stop n1).elapsed now := by
  refine ⟨fun h => ?_, ?_, fun now => ?_⟩
  · simp [ProfileTimer.Stop, h]
  · cases ht : t.end_ <;> simp [ProfileTimer.Stop, ht]
  · cases ht : t.end_ <;> simp [ProfileTimer.Stop, ht]

theorem Stop_idempotent_witness :
    ((ProfileTimer.mk 0 none).end_ = none →
      ((ProfileTimer.mk 0 none).Stop 1).end_ = some 1)
    ∧ ((ProfileTimer.mk 0 none).Stop 1).Stop 2 = (ProfileTimer.mk 0 none).Stop 1
    ∧ ∀ now, (((ProfileTimer.mk 0 none).Stop 1).Stop 2).elapsed now =
        ((ProfileTimer.mk 0 none).Stop 1).elapsed now :=
  Stop_idempotent (ProfileTimer.mk 0 none) 1 2

/-- C6: `elapsed` is `end - start` once stopped and `now - start` while
running, and `elapsed_ms` is the rounded millisecond count. -/
theorem elapsed_spec (t : ProfileTimer) (now : ℚ) :
    (∀ e, t.end_ = some e → t.elapsed now = e - t.start)
    ∧ (t.end_ = none → t.elapsed now = now - t.start)
    ∧ t.elapsed_ms now = pyRound (t.elapsed now * 1000) := by
  refine ⟨fun e he => ?_, fun he => ?_, rfl⟩
  · simp [ProfileTimer.elapsed, he]
  · simp [ProfileTimer.elapsed, he]

theorem elapsed_spec_witness :
    ((ProfileTimer.mk 0 (some 2)).end_ = some 2 →
      (ProfileTimer.mk 0 (some 2)).elapsed 5 = 2 - 0)
    ∧ (ProfileTimer.mk 0 (some 2)).elapsed_ms 5 =
        pyRound ((ProfileTimer.mk 0 (some 2)).elapsed 5 * 1000) :=
  ⟨fun h => (elapsed_spec (ProfileTimer.mk 0 (some 2)) 5).1 2 h,
   (elapsed_spec (ProfileTimer.mk 0 (some 2)) 5).2.2⟩

/-- C7: `ToProgressContext` keeps the same print-context object and the
returned plain context consists of nothing but that field. -/
theorem ToProgressContext_same_print_context (c : ProgressBarContext) :
    (c.ToProgressContext).print_context = some c.print_context
    ∧ ∀ a b : ProgressContext, a.print_context = b.print_context → a = b := by
  refine ⟨rfl, fun a b h => ?_⟩
  cases a; cases b; simpa using h

theorem ToProgressContext_same_print_context_witness :
    ((mkProgressBarContext "load" 0 (some 100) "files" 0 none 7).ToProgressContext).print_context
      = some (mkProgressBarContext "load" 0 (some 100) "files" 0 none 7).print_context :=
  (ToProgressContext_same_print_context
    (mkProgressBarContext "load" 0 (some 100) "files" 0 none 7)).1

/-- C9: on the null singleton, `print` raises `TypeError` because the held
`None` is called, while `Log`, `Warning`, `Error` and `Profile` only pass
the held value along and succeed. -/
theorem NullContext_print_type_error (args largs : List String) (lvl : ℤ)
    (msg : PName) :
    NullContext.printRun args = Except.error PyExc.typeError
    ∧ isOkB (NullContext.LogRun largs) = true
    ∧ isOkB (NullContext.WarningRun largs) = true
    ∧ isOkB (NullContext.ErrorRun largs) = true
    ∧ isOkB (NullContext.ProfileMkRun lvl msg) = true :=
  ⟨rfl, rfl, rfl, rfl, rfl⟩

/-- C1 (counterexample): with a body that raises `ValueError`, the sink is
not invoked at all — the claim's "exactly one sink invocation" fails. -/
theorem Profile_sink_skipped_on_error_cex :
    (ProfileRun (fun _ => "") (PName.lit "x") 0 1
        (Except.error PyExc.valueError)).sinkCalls.length ≠ 1 := by
  simp [ProfileRun]

/-- C1 (amended): the sink fires exactly once, after the timer is stopped,
when and only when the body completes normally; an exception from the body
propagates unchanged, with the timer left unstopped and the sink not
invoked. -/
theorem Profile_exit_paths (hum : ℚ → String) (name : PName) (s e : ℚ)
    (body : Except PyExc Unit) :
    (ProfileRun hum name s e body).outcome = body
    ∧ (ProfileRun hum name s e body).sinkCalls.length =
        (if isOkB body then 1 else 0)
    ∧ (ProfileRun hum name s e body).timer.end_ =
        (if isOkB body then some e else none) := by
  cases body <;> exact ⟨rfl, rfl, rfl⟩

/-- C10: a falsy `name` (empty string, `None`, any falsy non-callable)
resolves to the literal "completed", so the sink message is
"completed in <humanized elapsed>". -/
theorem Profile_falsy_name_completed (hum : ℚ → String) (name : PName)
    (s e : ℚ) (hfalsy : name.truthy = false) :
    (ProfileRun hum name s e (Except.ok ())).sinkCalls
      = ["completed in " ++ hum (e - s)] := by
  simp [ProfileRun, hfalsy, PName.toPyStr, ProfileTimer.Stop,
    ProfileTimer.elapsed]

theorem Profile_falsy_name_completed_witness :
    (ProfileRun (fun _ => "1 second") (PName.lit "") 0 1
        (Except.ok ())).sinkCalls
      = ["completed in " ++ (fun _ : ℚ => "1 second") (1 - 0)] :=
  Profile_falsy_name_completed (fun _ => "1 second") (PName.lit "") 0 1 rfl

theorem runLoopAux_stall (j : Job) (r : ℚ) (P : ℤ) (c : ℤ)
    (hdeath : j.death = none) (hconst : ∀ s, j.counter s = c)
    (hr : 0 < r) (hP : 0 < P) :
    ∀ fuel : Nat, ∀ t : ℚ, t ≤ (P : ℚ) + r → (P : ℚ) - t + r < fuel * r →
    ∃ evs e, runLoopAux j r P c 0 t fuel
        = some (evs, Except.error (PyExc.osError e))
      ∧ (P : ℚ) < e ∧ e ≤ (P : ℚ) + r := by
  intro fuel
  induction fuel with
  | zero =>
    intro t ht hm
    exfalso
    norm_num at hm
    linarith
  | succ fuel ih =>
    intro t ht hm
    have halive : j.alive t = true := by simp [Job.alive, hdeath]
    have hjoin : j.joinTime t r = t + r := by simp [Job.joinTime, hdeath]
    by_cases hstall : (P : ℚ) < t
    · refine ⟨[], t - 0, ?_, by linarith, by linarith⟩
      simp only [runLoopAux]
      rw [if_pos halive, if_neg (show ¬(j.counter t ≠ c) by simp [hconst t]),
        if_pos ⟨hP.ne', by linarith⟩]
    · have h1 : t + r ≤ (P : ℚ) + r := by linarith [not_lt.mp hstall]
      have h2 : (P : ℚ) - (t + r) + r < fuel * r := by
        push_cast at hm
        linarith
      obtain ⟨evs, e, heq, he1, he2⟩ := ih (t + r) h1 h2
      refine ⟨RunEvent.refresh t c :: evs, e, ?_, he1, he2⟩
      simp only [runLoopAux]
      rw [if_pos halive, if_neg (show ¬(j.counter t ≠ c) by simp [hconst t]),
        if_neg (show ¬((P : ℤ) ≠ 0 ∧ (P : ℚ) < t - 0) by
          rintro ⟨-, hlt⟩
          exact hstall (by linarith)),
        hjoin, heq]
      simp [hconst t]

/-- C2: a job whose counter never advances, run with positive patience,
makes `Run` raise `OSError` carrying the elapsed stall, strictly more than
`patience` and at most `patience + refresh_time` after the start (the
last observed progress); the loop terminates with that error. -/
theorem Run_stalls_within_patience_window (j : Job) (r : ℚ) (P : ℤ)
    (fuel : Nat) (hdeath : j.death = none)
    (hconst : ∀ t, j.counter t = j.counter 0) (hr : 0 < r) (hP : 0 < P)
    (hfuel : (P : ℚ) + r < fuel * r) :
    ∃ evs e, Run j r P fuel = some (evs, Except.error (PyExc.osError e))
      ∧ (P : ℚ) < e ∧ e ≤ (P : ℚ) + r := by
  have hP' : (0 : ℚ) < (P : ℚ) := by exact_mod_cast hP
  have h := runLoopAux_stall j r P (j.counter 0) hdeath hconst hr hP fuel 0
    (by linarith) (by simpa using hfuel)
  simpa [Run] using h

theorem Run_stalls_within_patience_window_witness :
    ∃ evs e,
      Run (Job.mk (fun _ => 0) none) 1 1 4
        = some (evs, Except.error (PyExc.osError e))
      ∧ ((1 : ℤ) : ℚ) < e ∧ e ≤ ((1 : ℤ) : ℚ) + 1 :=
  Run_stalls_within_patience_window (Job.mk (fun _ => 0) none) 1 1 4 rfl
    (fun _ => rfl) (by norm_num) (by norm_num) (by norm_num)

theorem runLoopAux_no_error_patience_zero (j : Job) (r : ℚ) :
    ∀ fuel : Nat, ∀ (lastI : ℤ) (lastProg t : ℚ) (evs : List RunEvent)
      (err : PyExc),
    runLoopAux j r 0 lastI lastProg t fuel ≠ some (evs, Except.error err) := by
  intro fuel
  induction fuel with
  | zero =>
    intro lastI lastProg t evs err
    simp [runLoopAux]
  | succ fuel ih =>
    intro lastI lastProg t evs err heq
    simp only [runLoopAux] at heq
    by_cases ha : j.alive t
    · rw [if_pos ha] at heq
      by_cases hc : j.counter t ≠ lastI
      · rw [if_pos hc] at heq
        cases hrec : runLoopAux j r 0 (j.counter t) t (j.joinTime t r) fuel with
        | none => rw [hrec] at heq; exact Option.noConfusion heq
        | some p =>
          obtain ⟨p1, p2⟩ := p
          rw [hrec] at heq
          simp only [Option.map_some', Option.some.injEq, Prod.mk.injEq] at heq
          exact ih _ _ _ _ _ (heq.2 ▸ hrec)
      · rw [if_neg hc,
          if_neg (show ¬((0 : ℤ) ≠ 0 ∧ ((0 : ℤ) : ℚ) < t - lastProg) from
            by simp)] at heq
        cases hrec : runLoopAux j r 0 lastI lastProg (j.joinTime t r) fuel with
        | none => rw [hrec] at heq; exact Option.noConfusion heq
        | some p =>
          obtain ⟨p1, p2⟩ := p
          rw [hrec] at heq
          simp only [Option.map_some', Option.some.injEq, Prod.mk.injEq] at heq
          exact ih _ _ _ _ _ (heq.2 ▸ hrec)
    · rw [if_neg ha] at heq
      simp only [Option.some.injEq, Prod.mk.injEq] at heq
      exact Except.noConfusion heq.2

theorem runLoopAux_patience_zero_completes (j : Job) (D r : ℚ)
    (hD : j.death = some D) (hr : 0 < r) :
    ∀ fuel : Nat, ∀ (lastI : ℤ) (lastProg t : ℚ), t ≤ D →
      D - t + r ≤ fuel * r →
    ∃ evs, runLoopAux j r 0 lastI lastProg t fuel
      = some (evs ++ [RunEvent.refresh D (j.counter D), RunEvent.close D],
          Except.ok ()) := by
  intro fuel
  induction fuel with
  | zero =>
    intro lastI lastProg t ht hm
    exfalso
    norm_num at hm
    linarith
  | succ fuel ih =>
    intro lastI lastProg t ht hm
    by_cases htD : t < D
    · have ha : j.alive t = true := by simp [Job.alive, hD, htD]
      have hjoin : j.joinTime t r = min (t + r) D := by
        simp only [Job.joinTime, hD]
      have ht' : min (t + r) D ≤ D := min_le_right _ _
      have hm' : D - min (t + r) D + r ≤ fuel * r := by
        rcases le_total (t + r) D with hle | hle
        · rw [min_eq_left hle]
          push_cast at hm
          linarith
        · rw [min_eq_right hle]
          have h0 : 0 < D - t := by linarith
          push_cast at hm
          have hfr : 0 < (fuel : ℚ) * r := by nlinarith
          have h1 : (1 : ℚ) ≤ (fuel : ℚ) := by
            have hne : fuel ≠ 0 := by
              rintro rfl
              norm_num at hfr
            exact_mod_cast Nat.one_le_iff_ne_zero.mpr hne
          nlinarith
      by_cases hc : j.counter t ≠ lastI
      · obtain ⟨evs, heq⟩ := ih (j.counter t) t (min (t + r) D) ht' hm'
        refine ⟨RunEvent.refresh t (j.counter t) :: evs, ?_⟩
        simp only [runLoopAux]
        rw [if_pos ha, if_pos hc, hjoin, heq]
        simp
      · obtain ⟨evs, heq⟩ := ih lastI lastProg (min (t + r) D) ht' hm'
        refine ⟨RunEvent.refresh t (j.counter t) :: evs, ?_⟩
        simp only [runLoopAux]
        rw [if_pos ha, if_neg hc,
          if_neg (show ¬((0 : ℤ) ≠ 0 ∧ ((0 : ℤ) : ℚ) < t - lastProg) from
            by simp),
          hjoin, heq]
        simp
    · have hteq : t = D := le_antisymm ht (not_lt.mp htD)
      subst hteq
      have ha : ¬(j.alive t = true) := by simp [Job.alive, hD, htD]
      refine ⟨[], ?_⟩
      simp only [runLoopAux]
      rw [if_neg ha]
      simp

/-- C3: with `patience = 0` the loop never raises the stall error for any
job, and a job whose thread finishes at time `D` is driven to completion:
a final refresh at `D` with the counter read at `D`, then the bar is
closed, and the call returns normally. -/
theorem Run_patience_zero_completes (j : Job) (D r : ℚ) (fuel : Nat)
    (hD : j.death = some D) (hD0 : 0 ≤ D) (hr : 0 < r)
    (hfuel : D + r ≤ fuel * r) :
    (∃ evs, Run j r 0 fuel
        = some (evs ++ [RunEvent.refresh D (j.counter D), RunEvent.close D],
            Except.ok ()))
    ∧ ∀ (j' : Job) (r' : ℚ) (fuel' : Nat) (evs' : List RunEvent)
        (err : PyExc),
        Run j' r' 0 fuel' ≠ some (evs', Except.error err) := by
  constructor
  · have h := runLoopAux_patience_zero_completes j D r hD hr fuel (j.counter 0)
      0 0 hD0 (by simpa using hfuel)
    simpa [Run] using h
  · intro j' r' fuel' evs' err
    exact runLoopAux_no_error_patience_zero j' r' fuel' _ _ _ evs' err

theorem Run_patience_zero_completes_witness :
    (∃ evs, Run (Job.mk (fun _ => 0) (some 1)) 1 0 3
        = some (evs ++ [RunEvent.refresh 1 ((Job.mk (fun _ => (0 : ℤ)) (some 1)).counter 1),
              RunEvent.close 1], Except.ok ()))
    ∧ ∀ (j' : Job) (r' : ℚ) (fuel' : Nat) (evs' : List RunEvent)
        (err : PyExc),
        Run j' r' 0 fuel' ≠ some (evs', Except.error err) :=
  Run_patience_zero_completes (Job.mk (fun _ => 0) (some 1)) 1 1 3 rfl
    (by norm_num) (by norm_num) (by norm_num)

theorem runLoopAux_error_refresh_only (j : Job) (r : ℚ) (P : ℤ) :
    ∀ fuel : Nat, ∀ (lastI : ℤ) (lastProg t : ℚ) (evs : List RunEvent)
      (err : PyExc),
    runLoopAux j r P lastI lastProg t fuel = some (evs, Except.error err) →
    ∀ ev ∈ evs, ∃ t' i', ev = RunEvent.refresh t' i' := by
  intro fuel
  induction fuel with
  | zero =>
    intro lastI lastProg t evs err heq
    simp [runLoopAux] at heq
  | succ fuel ih =>
    intro lastI lastProg t evs err heq
    simp only [runLoopAux] at heq
    by_cases ha : j.alive t
    · rw [if_pos ha] at heq
      by_cases hc : j.counter t ≠ lastI
      · rw [if_pos hc] at heq
        cases hrec : runLoopAux j r P (j.counter t) t (j.joinTime t r) fuel with
        | none => rw [hrec] at heq; exact absurd heq (by simp)
        | some p =>
          obtain ⟨p1, p2⟩ := p
          rw [hrec] at heq
          simp only [Option.map_some', Option.some.injEq, Prod.mk.injEq] at heq
          obtain ⟨hevs, hp2⟩ := heq
          intro ev hev
          rw [← hevs] at hev
          rcases List.mem_cons.mp hev with hev | hev
          · exact ⟨t, j.counter t, hev⟩
          · exact ih _ _ _ _ _ (hp2 ▸ hrec) ev hev
      · rw [if_neg hc] at heq
        by_cases hs : P ≠ 0 ∧ (P : ℚ) < t - lastProg
        · rw [if_pos hs] at heq
          simp only [Option.some.injEq, Prod.mk.injEq] at heq
          obtain ⟨hevs, -⟩ := heq
          intro ev hev
          rw [← hevs] at hev
          exact absurd hev (List.not_mem_nil ev)
        · rw [if_neg hs] at heq
          cases hrec : runLoopAux j r P lastI lastProg (j.joinTime t r) fuel with
          | none => rw [hrec] at heq; exact absurd heq (by simp)
          | some p =>
            obtain ⟨p1, p2⟩ := p
            rw [hrec] at heq
            simp only [Option.map_some', Option.some.injEq, Prod.mk.injEq]
              at heq
            obtain ⟨hevs, hp2⟩ := heq
            intro ev hev
            rw [← hevs] at hev
            rcases List.mem_cons.mp hev with hev | hev
            · exact ⟨t, j.counter t, hev⟩
            · exact ih _ _ _ _ _ (hp2 ▸ hrec) ev hev
    · rw [if_neg ha] at heq
      simp only [Option.some.injEq, Prod.mk.injEq] at heq
      exact Except.noConfusion heq.2

/-- C8: a loop iteration that raises the stall error (job alive, counter
unchanged, patience exceeded) returns the error with an empty event list:
the raise happens before that iteration's `Refresh`, so the bar's counter
is not updated with the current `ctx.i`, and no close is emitted there;
and any `Run` that ends in an error has a trace made only of refresh
events from earlier iterations — the bar is never closed by `Run` on the
error path. -/
theorem Run_stall_error_leaves_bar_open (j : Job) (r : ℚ) (P : ℤ)
    (lastI : ℤ) (lastProg t : ℚ) (fuel : Nat)
    (halive : j.alive t = true) (hsame : j.counter t = lastI)
    (hstall : P ≠ 0 ∧ (P : ℚ) < t - lastProg) :
    runLoopAux j r P lastI lastProg t (fuel + 1)
      = some ([], Except.error (PyExc.osError (t - lastProg)))
    ∧ ∀ (j' : Job) (r' : ℚ) (P' : ℤ) (fuel' : Nat) (evs : List RunEvent)
        (err : PyExc),
        Run j' r' P' fuel' = some (evs, Except.error err) →
        (∀ ev ∈ evs, ∃ t' i', ev = RunEvent.refresh t' i')
        ∧ ∀ tc : ℚ, RunEvent.close tc ∉ evs := by
  constructor
  · simp only [runLoopAux]
    rw [if_pos halive, if_neg (show ¬(j.counter t ≠ lastI) from by
      simp [hsame]), if_pos hstall]
  · intro j' r' P' fuel' evs err hrun
    have hall := runLoopAux_error_refresh_only j' r' P' fuel'
      (j'.counter 0) 0 0 evs err hrun
    refine ⟨hall, fun tc hmem => ?_⟩
    obtain ⟨t', i', hev⟩ := hall _ hmem
    exact RunEvent.noConfusion hev

theorem Run_stall_error_leaves_bar_open_witness :
    (runLoopAux (Job.mk (fun _ => 0) none) 1 1 0 0 2 (4 + 1)
        = some ([], Except.error (PyExc.osError (2 - 0))))
    ∧ ∀ (j' : Job) (r' : ℚ) (P' : ℤ) (fuel' : Nat) (evs : List RunEvent)
        (err : PyExc),
        Run j' r' P' fuel' = some (evs, Except.error err) →
        (∀ ev ∈ evs, ∃ t' i', ev = RunEvent.refresh t' i')
        ∧ ∀ tc : ℚ, RunEvent.close tc ∉ evs :=
  Run_stall_error_leaves_bar_open (Job.mk (fun _ => 0) none) 1 1 0 0 2 4
    rfl rfl ⟨by norm_num, by norm_num⟩
